import Mathlib

/-!
Verification development for the Resume_RAGBOT repository.

The Python sources are shallowly embedded: strings are `List Char`,
`json.loads` is modelled by an executable JSON reader, external services
(the Gemini embedding/LLM API, FAISS, pypdf) are abstracted as explicit
parameters or oracle outcomes, and Python exceptions are explicit values.
-/

namespace RagBot

/-- Python `str.strip()`: unicode-whitespace is approximated by
`Char.isWhitespace` (covers space, tab, CR, LF, the characters arising in
this code base). -/
def pyWs (c : Char) : Bool := c.isWhitespace

/-- Python `s.strip()` on a character list: drop whitespace from both ends. -/
def pyStrip (s : List Char) : List Char :=
  ((s.dropWhile pyWs).reverse.dropWhile pyWs).reverse

/-- `langchain_core.documents.Document` as constructed in `chunker.make_chunks`
(`src/chunker.py` lines 41-44): chunk text plus `page` and `source` metadata. -/
structure Chunk where
  text : List Char
  page : Nat
  source : String
deriving DecidableEq, Repr

/-- The fixed source label of `src/chunker.py` line 43. -/
def sourceLabel : String := "Arpit_Negi_Resume.pdf"

/-- The sliding-window `while` loop of `make_chunks`
(`src/chunker.py` lines 36-49): while `start < len(text)` emit
`text[start : start+chunk_size]` and advance `start` by
`chunk_size - chunk_overlap`.  The loop is embedded with explicit fuel;
`none` models non-termination of the Python loop (which happens exactly
when the stride `chunk_size - chunk_overlap` is not positive and the text
is non-empty; `make_chunks` below always supplies enough fuel for the
terminating cases). -/
def chunkLoopF : Nat → List Char → Nat → Nat → Nat → Option (List (List Char))
  | 0, _, _, _, _ => none
  | fuel + 1, t, L, O, start =>
    if start < t.length then
      match chunkLoopF fuel t L O (start + (L - O)) with
      | some rest => some ((t.drop start).take L :: rest)
      | none => none
    else some []

/-- The page loop of `make_chunks` (`src/chunker.py` lines 23-51):
pages are enumerated (0-based `i`), empty pages are skipped before
stripping, each non-empty page is stripped and cut by the sliding window,
and every window becomes a `Chunk` tagged with page `i+1`. -/
def makeChunksFrom (L O : Nat) : Nat → List (List Char) → Option (List Chunk)
  | _, [] => some []
  | i, p :: ps =>
    if p = [] then
      makeChunksFrom L O (i + 1) ps
    else
      match chunkLoopF ((pyStrip p).length + 1) (pyStrip p) L O 0,
            makeChunksFrom L O (i + 1) ps with
      | some ws, some cs =>
          some (ws.map (fun w => Chunk.mk w (i + 1) sourceLabel) ++ cs)
      | _, _ => none

/-- `chunker.make_chunks` (`src/chunker.py` lines 11-51) with its default
arguments `chunk_size=500`, `chunk_overlap=50`.  `none` models the
non-terminating executions. -/
def make_chunks (pages_text : List (List Char))
    (chunk_size : Nat := 500) (chunk_overlap : Nat := 50) : Option (List Chunk) :=
  makeChunksFrom chunk_size chunk_overlap 0 pages_text

/-- JSON values as produced by Python `json.loads`.  Objects keep their
key/value pairs in source order (Python dict insertion order); numbers keep
their source lexeme, since no code in this repository inspects a numeric
value. -/
inductive Json where
  | null
  | bool (b : Bool)
  | num (lexeme : List Char)
  | str (s : List Char)
  | arr (elems : List Json)
  | obj (fields : List (List Char × Json))

/-- JSON insignificant whitespace (the four characters accepted by Python's
`json` scanner between tokens). -/
def jsonWsChar (c : Char) : Bool := c = ' ' || c = '\t' || c = '\n' || c = '\r'

def skipWs (s : List Char) : List Char := s.dropWhile jsonWsChar

def hexDigitVal (c : Char) : Option Nat :=
  if c.isDigit then some (c.toNat - 48)
  else if 'a' ≤ c ∧ c ≤ 'f' then some (c.toNat - 87)
  else if 'A' ≤ c ∧ c ≤ 'F' then some (c.toNat - 55)
  else none

def escapeChar (c : Char) : Option Char :=
  if c = '"' then some '"'
  else if c = '\\' then some '\\'
  else if c = '/' then some '/'
  else if c = 'b' then some (Char.ofNat 8)
  else if c = 'f' then some (Char.ofNat 12)
  else if c = 'n' then some '\n'
  else if c = 'r' then some '\r'
  else if c = 't' then some '\t'
  else none

/-- Body of a JSON string literal, after the opening quote: decoded content
plus remaining input.  Surrogate pairs are not recombined (each `\uXXXX`
becomes one character); raw control characters are rejected as in Python's
strict mode. -/
def parseStringBody : List Char → Option (List Char × List Char)
  | [] => none
  | c :: rest =>
    if c = '"' then some ([], rest)
    else if c = '\\' then
      match rest with
      | [] => none
      | e :: rest2 =>
        if e = 'u' then
          match rest2 with
          | h1 :: h2 :: h3 :: h4 :: rest3 =>
            match hexDigitVal h1, hexDigitVal h2, hexDigitVal h3, hexDigitVal h4 with
            | some v1, some v2, some v3, some v4 =>
              match parseStringBody rest3 with
              | some (s, r) =>
                some (Char.ofNat (((v1 * 16 + v2) * 16 + v3) * 16 + v4) :: s, r)
              | none => none
            | _, _, _, _ => none
          | _ => none
        else
          match escapeChar e with
          | some d =>
            match parseStringBody rest2 with
            | some (s, r) => some (d :: s, r)
            | none => none
          | none => none
    else if c.toNat < 32 then none
    else
      match parseStringBody rest with
      | some (s, r) => some (c :: s, r)
      | none => none

def jsonFrac (s : List Char) : Option (List Char × List Char) :=
  match s with
  | c :: r =>
    if c = '.' then
      let ds := r.takeWhile Char.isDigit
      if ds = [] then none else some ('.' :: ds, r.dropWhile Char.isDigit)
    else some ([], s)
  | [] => some ([], s)

def jsonExp (s : List Char) : Option (List Char × List Char) :=
  match s with
  | c :: r =>
    if c = 'e' ∨ c = 'E' then
      match r with
      | d :: r3 =>
        if d = '+' ∨ d = '-' then
          let ds := r3.takeWhile Char.isDigit
          if ds = [] then none
          else some (c :: d :: ds, r3.dropWhile Char.isDigit)
        else
          let ds := r.takeWhile Char.isDigit
          if ds = [] then none
          else some (c :: ds, r.dropWhile Char.isDigit)
      | [] => none
    else some ([], s)
  | [] => some ([], s)

def parseNumberLex (s : List Char) : Option (List Char × List Char) :=
  match s with
  | [] => none
  | c0 :: r0 =>
    let signed : List Char × List Char :=
      if c0 = '-' then (['-'], r0) else ([], s)
    match signed.2 with
    | [] => none
    | c :: r =>
      let intRes : Option (List Char × List Char) :=
        if c = '0' then some (['0'], r)
        else if c.isDigit then some (c :: r.takeWhile Char.isDigit, r.dropWhile Char.isDigit)
        else none
      match intRes with
      | none => none
      | some (ip, r1) =>
        match jsonFrac r1 with
        | none => none
        | some (fp, r2) =>
          match jsonExp r2 with
          | none => none
          | some (ep, r3) => some (signed.1 ++ ip ++ fp ++ ep, r3)

/-- Intermediate results of the recursive-descent JSON reader: a single
value, the elements of an array being read, or the members of an object
being read. -/
inductive JPart where
  | val (j : Json)
  | items (js : List Json)
  | fields (ps : List (List Char × Json))

def lbraceChar : Char := Char.ofNat 123

def rbraceChar : Char := Char.ofNat 125

def nullLit : List Char := "null".toList

def trueLit : List Char := "true".toList

def falseLit : List Char := "false".toList

def nanLit : List Char := "NaN".toList

def infLit : List Char := "Infinity".toList

def negInfLit : List Char := "-Infinity".toList

/-- One reader for the three mutually recursive syntactic classes, driven by
`mode` (0 = value, 1 = array elements, 2 = object members) with explicit
fuel; `loads` supplies ample fuel, so `none` means a syntax error exactly as
`json.JSONDecodeError` does for Python's `json.loads`. -/
def parseCore : Nat → Nat → List Char → Option (JPart × List Char)
  | 0, _, _ => none
  | fuel + 1, mode, s =>
    if mode = 0 then
      match s with
      | [] => none
      | c :: rest =>
        if c = '"' then
          match parseStringBody rest with
          | some (str, r) => some (.val (.str str), r)
          | none => none
        else if c = lbraceChar then
          match skipWs rest with
          | d :: r2 =>
            if d = rbraceChar then some (.val (.obj []), r2)
            else
              match parseCore fuel 2 (skipWs rest) with
              | some (.fields ps, r3) => some (.val (.obj ps), r3)
              | _ => none
          | [] => none
        else if c = '[' then
          match skipWs rest with
          | d :: r2 =>
            if d = ']' then some (.val (.arr []), r2)
            else
              match parseCore fuel 1 (skipWs rest) with
              | some (.items js, r3) => some (.val (.arr js), r3)
              | _ => none
          | [] => none
        else if nullLit.isPrefixOf s then some (.val .null, s.drop 4)
        else if trueLit.isPrefixOf s then some (.val (.bool true), s.drop 4)
        else if falseLit.isPrefixOf s then some (.val (.bool false), s.drop 5)
        else if nanLit.isPrefixOf s then some (.val (.num nanLit), s.drop 3)
        else if infLit.isPrefixOf s then some (.val (.num infLit), s.drop 8)
        else if negInfLit.isPrefixOf s then some (.val (.num negInfLit), s.drop 9)
        else
          match parseNumberLex s with
          | some (lex, r) => some (.val (.num lex), r)
          | none => none
    else if mode = 1 then
      match parseCore fuel 0 s with
      | some (.val j, r) =>
        match skipWs r with
        | c :: r2 =>
          if c = ',' then
            match parseCore fuel 1 (skipWs r2) with
            | some (.items js, r3) => some (.items (j :: js), r3)
            | _ => none
          else if c = ']' then some (.items [j], r2)
          else none
        | [] => none
      | _ => none
    else
      match s with
      | c :: rest =>
        if c = '"' then
          match parseStringBody rest with
          | some (key, r) =>
            match skipWs r with
            | d :: r2 =>
              if d = ':' then
                match parseCore fuel 0 (skipWs r2) with
                | some (.val j, r3) =>
                  match skipWs r3 with
                  | e :: r4 =>
                    if e = ',' then
                      match parseCore fuel 2 (skipWs r4) with
                      | some (.fields ps, r5) => some (.fields ((key, j) :: ps), r5)
                      | _ => none
                    else if e = rbraceChar then some (.fields [(key, j)], r4)
                    else none
                  | [] => none
                | _ => none
              else none
            | [] => none
          | none => none
        else none
      | [] => none

/-- Python `json.loads` on a string: skip surrounding whitespace, read one
JSON value, require nothing but whitespace after it; `none` models
`json.JSONDecodeError`. -/
def loads (s : List Char) : Option Json :=
  match parseCore (2 * s.length + 2) 0 (skipWs s) with
  | some (.val j, rest) => if skipWs rest = [] then some j else none
  | _ => none

def tickChar : Char := Char.ofNat 96

/-- The triple-backtick marker that both response cleaners look for. -/
def fence : List Char := [tickChar, tickChar, tickChar]

/-- The language tag `"json\n"` tested by `raw_response.startswith("json\n")`
(`src/rag_chain.py` lines 170 and 238). -/
def jsonTag : List Char := "json\n".toList

/-- Python `raw_response.split("```")` (non-overlapping, left to right),
specialised to the fixed separator; `acc` holds the current piece reversed. -/
def splitFenceAux : List Char → List Char → List (List Char)
  | acc, [] => [acc.reverse]
  | acc, [a] => [(a :: acc).reverse]
  | acc, [a, b] => [(b :: a :: acc).reverse]
  | acc, a :: b :: c :: rest =>
    if a = tickChar ∧ b = tickChar ∧ c = tickChar then
      acc.reverse :: splitFenceAux [] rest
    else
      splitFenceAux (a :: acc) (b :: c :: rest)

def pySplitFence (s : List Char) : List (List Char) := splitFenceAux [] s

/-- The shared response-cleaning step of `_extract_skills_from_resume` and
`_evaluate_ats` (`src/rag_chain.py` lines 165-171 and 234-240):
`raw_response = response.content.strip()`, then if it starts with three
backticks take `split("```")[1]` (the index is always in range on this
path, since the separator occurs at position 0) and strip a leading
`"json\n"` tag by dropping 5 characters. -/
def cleanResponse (response : List Char) : List Char :=
  let raw := pyStrip response
  if fence.isPrefixOf raw then
    let raw1 := (pySplitFence raw).getD 1 []
    if jsonTag.isPrefixOf raw1 then raw1.drop 5 else raw1
  else raw

/-- The Python exceptions this embedding distinguishes. -/
inductive PyExn where
  | valueError (msg : List Char)
  | typeError (msg : List Char)
  | attributeError (msg : List Char)
deriving DecidableEq, Repr

def skillsKey : List Char := "skills".toList

def invalidJsonMsg : List Char := "Invalid JSON response from LLM".toList

def errorKey : List Char := "error".toList

def rawOutputKey : List Char := "raw_output".toList

/-- The fallback object built by `_evaluate_ats` on `json.JSONDecodeError`
(`src/rag_chain.py` lines 245-248).  Note that the code stores the cleaned
`raw_response`, which has been reassigned by the fence-stripping step. -/
def invalidJsonObj (raw : List Char) : Json :=
  Json.obj [(errorKey, Json.str invalidJsonMsg), (rawOutputKey, Json.str raw)]

/-- Python `dict.get(key, default)` on the parsed object's fields.  A dict
built from duplicate keys keeps the last binding, hence the `reverse`. -/
def dictGet (key : List Char) (fields : List (List Char × Json)) (dflt : Json) : Json :=
  match fields.reverse.find? (fun kv => kv.fst == key) with
  | some kv => kv.snd
  | none => dflt

/-- `_extract_skills_from_resume` (`src/rag_chain.py` lines 134-177) from the
point where the LLM response text is available (the `llm.invoke` call is
external).  On `json.JSONDecodeError` the function returns the empty list
(line 176-177); on a parsed non-dict, `parsed_skills.get` raises
`AttributeError`, which the `except json.JSONDecodeError` clause does not
catch. -/
def extract_skills_from_resume (response : List Char) : Except PyExn Json :=
  let raw := cleanResponse response
  match loads raw with
  | none => Except.ok (Json.arr [])
  | some (Json.obj fields) => Except.ok (dictGet skillsKey fields (Json.arr []))
  | some _ => Except.error (PyExn.attributeError "object has no attribute get".toList)

/-- `_evaluate_ats` (`src/rag_chain.py` lines 180-250) from the point where
the LLM response text is available: parse the cleaned response, or
substitute the `{error, raw_output}` object on `json.JSONDecodeError`. -/
def evaluate_ats (response : List Char) : Json :=
  let raw := cleanResponse response
  match loads raw with
  | some j => j
  | none => invalidJsonObj raw

/-- Observable outcome of the deterministic prefix of `analyze_resume`:
either a `ValueError` was raised by input validation, or control reached
STEP 1 (chunking) with the recorded chunks, after which the remaining steps
call external services. -/
inductive AnalyzeOutcome where
  | valueError (msg : List Char)
  | proceeds (chunks : Option (List Chunk))
deriving DecidableEq, Repr

/-- `analyze_resume` (`src/rag_chain.py` lines 12-54) up to its first
external interaction: validate `resume_text`, then `job_description`
(Python falsiness `not s` together with `not s.strip()`), then the
`GOOGLE_API_KEY` environment value (`None` when absent; the empty string is
also falsy), and only then chunk the resume.  The subsequent vector-store,
retrieval and LLM steps depend on external services and are outside this
deterministic prefix. -/
def analyze_resume (resume_text job_description : List Char)
    (googleApiKey : Option String) : AnalyzeOutcome :=
  if resume_text = [] ∨ pyStrip resume_text = [] then
    .valueError "Resume text cannot be empty".toList
  else if job_description = [] ∨ pyStrip job_description = [] then
    .valueError "Job description cannot be empty".toList
  else if googleApiKey = none ∨ googleApiKey = some "" then
    .valueError "GOOGLE_API_KEY not found in environment".toList
  else
    .proceeds (make_chunks [resume_text])

/-- `FAISS_DIR` of `src/vector_store.py` line 34. -/
def FAISS_DIR : String := "data/faiss_index"

/-- `EMBEDDING_MODEL` of `src/vector_store.py` line 37. -/
def EMBEDDING_MODEL : String := "models/text-embedding-004"

structure EmbeddingModel where
  model : String
  key : String
deriving DecidableEq, Repr

/-- `get_embedding_model` (`src/vector_store.py` lines 42-59): fail with
`ValueError` when the credential is absent (or falsy), otherwise return the
embedding-model client value. -/
def get_embedding_model (googleApiKey : Option String) : Except PyExn EmbeddingModel :=
  if googleApiKey = none ∨ googleApiKey = some "" then
    .error (.valueError "GOOGLE_API_KEY not found. Add it to your .env file.".toList)
  else
    .ok ⟨EMBEDDING_MODEL, googleApiKey.getD ""⟩

/-- The FAISS store as observable here: the indexed documents paired with
the embedding client. -/
structure VectorStore where
  docs : List Chunk
  embeddings : EmbeddingModel
deriving DecidableEq, Repr

/-- Filesystem side effects of `build_vector_store`. -/
inductive FsEffect where
  | makedirs (dir : String)
  | saveLocal (dir : String)
deriving DecidableEq, Repr

/-- `build_vector_store` (`src/vector_store.py` lines 64-86).  The external
`FAISS.from_documents` embedding calls are assumed to succeed (an external
service failure would propagate and is out of scope for every claim about
this function).  After building the index the function unconditionally runs
`os.makedirs(persist_directory, exist_ok=True)` and
`vectordb.save_local(persist_directory)`; `os.makedirs` raises `TypeError`
when its path is `None`. -/
def build_vector_store (chunks : List Chunk) (googleApiKey : Option String)
    (persist_directory : Option String := some FAISS_DIR) :
    Except PyExn (VectorStore × List FsEffect) :=
  match get_embedding_model googleApiKey with
  | .error e => .error e
  | .ok emb =>
    match persist_directory with
    | none =>
      .error (.typeError "expected str, bytes or os.PathLike object, not NoneType".toList)
    | some d => .ok (⟨chunks, emb⟩, [.makedirs d, .saveLocal d])

/-- The names bound at top level of the module `src/rag_chain.py` (its
imports on lines 1-7 and its `def` statements on lines 12, 81, 134, 180 and
255).  A `from .rag_chain import x` in `src/api.py` succeeds exactly when
`x` is among them. -/
def ragChainTopLevelNames : List String :=
  ["os", "json", "Dict", "Any", "ChatGoogleGenerativeAI", "load_dotenv",
   "analyze_resume", "analyze_resume_input", "_extract_skills_from_resume",
   "_evaluate_ats", "build_rag_chain"]

/-- The names `src/api.py` line 26 imports from `.rag_chain`. -/
def apiImportsFromRagChain : List String :=
  ["extract_skills_only", "evaluate_ats_only"]

/-- Whether the `from .rag_chain import ...` statement of `src/api.py` line
26 can succeed. -/
def apiImportSucceeds : Bool :=
  apiImportsFromRagChain.all (fun n => ragChainTopLevelNames.contains n)

def exnMessage : PyExn → List Char
  | .valueError m => m
  | .typeError m => m
  | .attributeError m => m

def pageSep : List Char := "\n\n".toList

/-- `extract_text_from_pdf_bytes` (`src/pdf_loader.py` lines 34-73).  The
external pypdf reader is abstracted as an oracle: either an exception while
constructing the reader or extracting text, or the per-page results of
`page.extract_text()` (`none` models a page returning `None`).  The whole
body runs inside `try`, whose `except Exception` clause re-raises every
failure as `ValueError("Failed to extract text from PDF: ...")`, including
the function's own two `ValueError` rejections. -/
def pageTextF (pg : Option (List Char)) : Option (List Char) :=
  if pyStrip (pg.getD []) = [] then none else some (pyStrip (pg.getD []))

/-- The `try` block of `extract_text_from_pdf_bytes`: reject when the reader
reports no pages, strip each page's text (a page returning `None` counts as
empty), keep only non-empty pages, reject when none remain, and otherwise
join the page texts with `"\n\n"`. -/
def pdfTryBody
    (pdfPages : Except PyExn (List (Option (List Char)))) : Except PyExn (List Char) :=
  match pdfPages with
  | .error e => .error e
  | .ok pages =>
    if pages.length = 0 then .error (.valueError "PDF has no pages".toList)
    else
      if (pages.filterMap pageTextF).length = 0 then
        .error (.valueError
          "No text could be extracted from PDF. Ensure it is a text-based PDF (not image-only).".toList)
      else .ok (List.intercalate pageSep (pages.filterMap pageTextF))

def extract_text_from_pdf_bytes
    (pdfPages : Except PyExn (List (Option (List Char)))) : Except PyExn (List Char) :=
  match pdfTryBody pdfPages with
  | .ok t => .ok t
  | .error e =>
    .error (.valueError ("Failed to extract text from PDF: ".toList ++ exnMessage e))

theorem chunkLoopF_spec (t : List Char) (L O : Nat) (hs : 0 < L - O) :
    ∀ fuel start, t.length - start < fuel →
      ∃ ws, chunkLoopF fuel t L O start = some ws ∧
        ∀ j : Nat, ws[j]? =
          if start + j * (L - O) < t.length
          then some ((t.drop (start + j * (L - O))).take L) else none := by
  intro fuel
  induction fuel with
  | zero => intro start h; omega
  | succ fuel ih =>
    intro start h
    by_cases hlt : start < t.length
    · obtain ⟨ws, hws, hidx⟩ := ih (start + (L - O)) (by omega)
      refine ⟨(t.drop start).take L :: ws, ?_, ?_⟩
      · simp [chunkLoopF, hlt, hws]
      · intro j
        cases j with
        | zero => simp [hlt]
        | succ j =>
          have harith : start + (L - O) + j * (L - O) = start + (j + 1) * (L - O) := by
            ring
          simpa [harith] using hidx j
    · refine ⟨[], ?_, ?_⟩
      · simp [chunkLoopF, hlt]
      · intro j
        have hmono : start ≤ start + j * (L - O) := Nat.le_add_right _ _
        have : ¬ (start + j * (L - O) < t.length) := by omega
        simp [this]

theorem chunkLoopF_zero_stride (t : List Char) (L O : Nat) (hLO : L - O = 0) :
    ∀ fuel start, start < t.length → chunkLoopF fuel t L O start = none := by
  intro fuel
  induction fuel with
  | zero => intro start _; rfl
  | succ fuel ih =>
    intro start h
    simp [chunkLoopF, h, hLO, ih start h]

theorem chunkLoopF_sound (t : List Char) (L O : Nat) :
    ∀ fuel start ws, chunkLoopF fuel t L O start = some ws →
      ∀ w ∈ ws, w ≠ [] ∧ w.length ≤ L := by
  intro fuel
  induction fuel with
  | zero => intro start ws h; exact absurd h (by simp [chunkLoopF])
  | succ fuel ih =>
    intro start ws h
    by_cases hlt : start < t.length
    · cases hrec : chunkLoopF fuel t L O (start + (L - O)) with
      | none => simp [chunkLoopF, hlt, hrec] at h
      | some rest =>
        simp [chunkLoopF, hlt, hrec] at h
        have hL : 0 < L := by
          by_contra hc
          have hL0 : L = 0 := by omega
          have hz : L - O = 0 := by omega
          have : chunkLoopF fuel t L O (start + (L - O)) = none := by
            have := chunkLoopF_zero_stride t L O hz fuel (start + (L - O))
            have hstart : start + (L - O) = start := by omega
            rw [hstart] at this ⊢
            exact this hlt
          rw [this] at hrec
          cases hrec
        subst h
        intro w hw
        rcases List.mem_cons.mp hw with he | hm
        · subst he
          constructor
          · have hlen : ((t.drop start).take L).length = min L (t.length - start) := by
              simp [List.length_take, List.length_drop]
            have hpos : 0 < ((t.drop start).take L).length := by
              rw [hlen]; omega
            exact List.ne_nil_of_length_pos hpos
          · have hlen : ((t.drop start).take L).length = min L (t.length - start) := by
              simp [List.length_take, List.length_drop]
            rw [hlen]; omega
        · exact ih _ _ hrec w hm
    · simp [chunkLoopF, hlt] at h
      subst h
      intro w hw
      cases hw

theorem makeChunksFrom_all_ws (L O : Nat) :
    ∀ (pages : List (List Char)) (i : Nat),
      (∀ p ∈ pages, ∀ c ∈ p, pyWs c = true) → makeChunksFrom L O i pages = some [] := by
  intro pages
  induction pages with
  | nil => intro i _; rfl
  | cons p ps ih =>
    intro i hall
    have hrest : makeChunksFrom L O (i + 1) ps = some [] :=
      ih _ (fun q hq => hall q (List.mem_cons_of_mem _ hq))
    by_cases hp : p = []
    · simp [makeChunksFrom, hp, hrest]
    · have hstrip : pyStrip p = [] := by
        have hdw : p.dropWhile pyWs = [] :=
          List.dropWhile_eq_nil_iff.mpr (hall p (List.mem_cons_self _ _))
        simp [pyStrip, hdw]
      simp [makeChunksFrom, hp, hstrip, hrest, chunkLoopF]

theorem makeChunksFrom_sound (L O : Nat) :
    ∀ (pages : List (List Char)) (i : Nat) (cs : List Chunk),
      makeChunksFrom L O i pages = some cs →
      ∀ c ∈ cs, c.text ≠ [] ∧ c.text.length ≤ L := by
  intro pages
  induction pages with
  | nil =>
    intro i cs h
    simp [makeChunksFrom] at h
    subst h
    intro c hc
    cases hc
  | cons p ps ih =>
    intro i cs h
    by_cases hp : p = []
    · rw [makeChunksFrom, if_pos hp] at h
      exact ih _ _ h
    · rw [makeChunksFrom, if_neg hp] at h
      cases h1 : chunkLoopF ((pyStrip p).length + 1) (pyStrip p) L O 0 with
      | none => rw [h1] at h; cases h
      | some ws =>
        cases h2 : makeChunksFrom L O (i + 1) ps with
        | none => rw [h1, h2] at h; cases h
        | some cs2 =>
          rw [h1, h2] at h
          have hcs : cs = ws.map (fun w => Chunk.mk w (i + 1) sourceLabel) ++ cs2 := by
            cases h; rfl
          subst hcs
          intro c hc
          rcases List.mem_append.mp hc with hml | hmr
          · obtain ⟨w, hw, hwc⟩ := List.mem_map.mp hml
            have := chunkLoopF_sound (pyStrip p) L O _ _ _ h1 w hw
            rw [← hwc]
            exact this
          · exact ih _ _ h2 c hmr

theorem makeChunksFrom_isSome (L O : Nat) (hO : O < L) :
    ∀ (pages : List (List Char)) (i : Nat), (makeChunksFrom L O i pages).isSome := by
  intro pages
  induction pages with
  | nil => intro i; rfl
  | cons p ps ih =>
    intro i
    have hs : 0 < L - O := by omega
    obtain ⟨ws, hws, _⟩ :=
      chunkLoopF_spec (pyStrip p) L O hs ((pyStrip p).length + 1) 0 (by omega)
    have hrest := ih (i + 1)
    obtain ⟨cs2, hcs2⟩ := Option.isSome_iff_exists.mp hrest
    by_cases hp : p = []
    · rw [makeChunksFrom, if_pos hp]
      exact ih (i + 1)
    · rw [makeChunksFrom, if_neg hp, hws, hcs2]
      rfl

theorem make_chunks_single (p : List Char) (L O : Nat) (hO : O < L)
    (hn : pyStrip p ≠ []) :
    ∃ ws : List (List Char),
      make_chunks [p] L O = some (ws.map (fun w => Chunk.mk w 1 sourceLabel)) ∧
      ∀ j : Nat, ws[j]? =
        if j * (L - O) < (pyStrip p).length
        then some (((pyStrip p).drop (j * (L - O))).take L) else none := by
  have hs : 0 < L - O := by omega
  obtain ⟨ws, hws, hidx⟩ :=
    chunkLoopF_spec (pyStrip p) L O hs ((pyStrip p).length + 1) 0 (by omega)
  have hp : p ≠ [] := by
    intro hc
    rw [hc] at hn
    exact hn rfl
  refine ⟨ws, ?_, ?_⟩
  · rw [make_chunks, makeChunksFrom, if_neg hp, hws, makeChunksFrom]
    simp
  · intro j
    simpa using hidx j

/-- Claim C6: under the precondition `0 ≤ chunk_overlap < chunk_size`, the
sliding-window loop of `make_chunks` terminates on every input list of pages
(the embedding returns `some` rather than the divergence marker `none`). -/
theorem c6_make_chunks_total (pages : List (List Char)) (L O : Nat) (hO : O < L) :
    (make_chunks pages L O).isSome = true :=
  makeChunksFrom_isSome L O hO pages 0

theorem c6_make_chunks_total_witness :
    (make_chunks ["Python, AWS, Docker. 3 years backend experience.".toList]
      500 50).isSome = true :=
  c6_make_chunks_total
    ["Python, AWS, Docker. 3 years backend experience.".toList] 500 50
    (by decide)

/-- Claim C9: `make_chunks` maps the empty page list to no chunks, maps a list
of empty or whitespace-only pages to no chunks, and every chunk it ever
produces has non-empty text of length at most `chunk_size`. -/
theorem c9_chunk_basic_properties :
    (∀ L O : Nat, make_chunks [] L O = some []) ∧
    (∀ (pages : List (List Char)) (L O : Nat),
        (∀ p ∈ pages, ∀ c ∈ p, pyWs c = true) → make_chunks pages L O = some []) ∧
    (∀ (pages : List (List Char)) (L O : Nat) (cs : List Chunk),
        make_chunks pages L O = some cs →
        ∀ c ∈ cs, c.text ≠ [] ∧ c.text.length ≤ L) := by
  refine ⟨fun L O => rfl, ?_, ?_⟩
  · intro pages L O hall
    exact makeChunksFrom_all_ws L O pages 0 hall
  · intro pages L O cs h
    exact makeChunksFrom_sound L O pages 0 cs h

theorem c9_chunk_basic_properties_witness :
    make_chunks [] 500 50 = some [] ∧
    make_chunks [[], " \t\n ".toList] 500 50 = some [] ∧
    (∀ c ∈ [Chunk.mk "ab".toList 1 sourceLabel], c.text ≠ [] ∧ c.text.length ≤ 5) :=
  ⟨c9_chunk_basic_properties.1 500 50,
   c9_chunk_basic_properties.2.1 [[], " \t\n ".toList] 500 50 (by decide),
   c9_chunk_basic_properties.2.2 ["ab".toList] 5 3
     [Chunk.mk "ab".toList 1 sourceLabel] (by decide)⟩

/-- Claim C5 (confirmed): for a page with trimmed text of length `n > 0` and
`0 ≤ O < L` with stride `s = L - O`, `make_chunks` produces exactly the
windows `text[j*s : j*s+L]` for the `j` with `j*s < n`, in that order; every
character position is covered by some window; and whenever adjacent windows
`j` and `j+1` both exist and window `j` has full length `L`, the last `O`
characters of window `j` equal the first `O` characters of window `j+1`. -/
theorem c5_window_structure (p : List Char) (L O : Nat) (hO : O < L)
    (hn : 0 < (pyStrip p).length) :
    ∃ cs : List Chunk, make_chunks [p] L O = some cs ∧
      (∀ j : Nat, (cs.map Chunk.text)[j]? =
          if j * (L - O) < (pyStrip p).length
          then some (((pyStrip p).drop (j * (L - O))).take L) else none) ∧
      (∀ k < (pyStrip p).length, ∃ j : Nat,
          j * (L - O) < (pyStrip p).length ∧ j * (L - O) ≤ k ∧ k < j * (L - O) + L) ∧
      (∀ j : Nat, (j + 1) * (L - O) < (pyStrip p).length →
          (((pyStrip p).drop (j * (L - O))).take L).length = L →
          (((pyStrip p).drop (j * (L - O))).take L).drop (L - O) =
            (((pyStrip p).drop ((j + 1) * (L - O))).take L).take O) := by
  have hn' : pyStrip p ≠ [] := by
    intro hc
    rw [hc] at hn
    simp at hn
  obtain ⟨ws, hmk, hidx⟩ := make_chunks_single p L O hO hn'
  refine ⟨ws.map (fun w => Chunk.mk w 1 sourceLabel), hmk, ?_, ?_, ?_⟩
  · intro j
    have hmap : ((ws.map (fun w => Chunk.mk w 1 sourceLabel)).map Chunk.text) = ws := by
      simp [List.map_map, Function.comp_def]
    rw [hmap]
    exact hidx j
  · intro k hk
    have hs : 0 < L - O := by omega
    have h1 : k / (L - O) * (L - O) ≤ k := Nat.div_mul_le_self k (L - O)
    have h2 := Nat.div_add_mod k (L - O)
    rw [Nat.mul_comm] at h2
    have h3 : k % (L - O) < L - O := Nat.mod_lt k hs
    exact ⟨k / (L - O), by omega, h1, by omega⟩
  · intro j hj1 hfull
    have hmin : (((pyStrip p).drop (j * (L - O))).take L).length =
        min L ((pyStrip p).length - j * (L - O)) := by
      simp [List.length_take, List.length_drop]
    rw [hmin] at hfull
    have hle : L ≤ (pyStrip p).length - j * (L - O) := min_eq_left_iff.mp hfull
    rw [List.drop_take, List.drop_drop, List.take_take]
    have e1 : L - (L - O) = O := by omega
    have e2 : j * (L - O) + (L - O) = (j + 1) * (L - O) := by ring
    have e3 : min O L = O := by omega
    rw [e1, e2, e3]

theorem c5_window_structure_witness :
    ∃ cs : List Chunk, make_chunks ["abcdef".toList] 3 1 = some cs ∧
      (∀ j : Nat, (cs.map Chunk.text)[j]? =
          if j * (3 - 1) < (pyStrip "abcdef".toList).length
          then some (((pyStrip "abcdef".toList).drop (j * (3 - 1))).take 3) else none) ∧
      (∀ k < (pyStrip "abcdef".toList).length, ∃ j : Nat,
          j * (3 - 1) < (pyStrip "abcdef".toList).length ∧
          j * (3 - 1) ≤ k ∧ k < j * (3 - 1) + 3) ∧
      (∀ j : Nat, (j + 1) * (3 - 1) < (pyStrip "abcdef".toList).length →
          (((pyStrip "abcdef".toList).drop (j * (3 - 1))).take 3).length = 3 →
          (((pyStrip "abcdef".toList).drop (j * (3 - 1))).take 3).drop (3 - 1) =
            (((pyStrip "abcdef".toList).drop ((j + 1) * (3 - 1))).take 3).take 1) :=
  c5_window_structure "abcdef".toList 3 1 (by decide) (by decide)

/-- Claim C3 as stated is false on two counts.  The page "abcd" (trimmed
length 4, shorter than `L = 5`) with overlap `O = 3` produces two chunks,
not one, because its length exceeds the stride `L - O = 2`.  And
re-chunking is not literally idempotent on every single short chunk: the
chunk " x" (produced by chunking "xab x" with `L = 3`, `O = 0`) re-chunks
to the different chunk "x", because `make_chunks` strips the page first. -/
theorem c3_counterexample :
    (0 < (pyStrip "abcd".toList).length ∧
      (pyStrip "abcd".toList).length < 5 ∧
      make_chunks ["abcd".toList] 5 3 =
        some [Chunk.mk "abcd".toList 1 sourceLabel, Chunk.mk "cd".toList 1 sourceLabel]) ∧
    (make_chunks ["xab x".toList] 3 0 =
        some [Chunk.mk "xab".toList 1 sourceLabel, Chunk.mk " x".toList 1 sourceLabel] ∧
      make_chunks [" x".toList] 3 0 = some [Chunk.mk "x".toList 1 sourceLabel] ∧
      Chunk.mk "x".toList 1 sourceLabel ≠ Chunk.mk " x".toList 1 sourceLabel) :=
  ⟨⟨by decide, by decide, by decide⟩, by decide, by decide, by decide⟩

/-- Claim C3, amended: for a page whose trimmed text is non-empty and of
length at most the stride `L - O` (with `0 ≤ O < L`), `make_chunks` produces
exactly one chunk whose text is the whole trimmed page; consequently
re-chunking a single already-trimmed chunk of length at most `L - O`
returns that identical chunk. -/
theorem c3_short_page_single_chunk :
    (∀ (p : List Char) (L O : Nat), O < L → pyStrip p ≠ [] →
        (pyStrip p).length ≤ L - O →
        make_chunks [p] L O = some [Chunk.mk (pyStrip p) 1 sourceLabel]) ∧
    (∀ (c : Chunk) (L O : Nat), O < L → c.text ≠ [] → pyStrip c.text = c.text →
        c.text.length ≤ L - O → c.page = 1 → c.source = sourceLabel →
        make_chunks [c.text] L O = some [c]) := by
  have main : ∀ (p : List Char) (L O : Nat), O < L → pyStrip p ≠ [] →
      (pyStrip p).length ≤ L - O →
      make_chunks [p] L O = some [Chunk.mk (pyStrip p) 1 sourceLabel] := by
    intro p L O hO hn hlen
    obtain ⟨ws, hmk, hidx⟩ := make_chunks_single p L O hO hn
    have hn0 : 0 < (pyStrip p).length := List.length_pos.mpr hn
    have h0 : ws[0]? = some (pyStrip p) := by
      have := hidx 0
      simp only [Nat.zero_mul, Nat.zero_add, List.drop_zero] at this
      rw [this, if_pos hn0]
      have hLle : (pyStrip p).length ≤ L := by omega
      rw [List.take_of_length_le hLle]
    have h1 : ws[1]? = none := by
      have := hidx 1
      rw [this, if_neg (by omega)]
    have hlen1 : ws.length = 1 := by
      have hub : ws.length ≤ 1 := List.getElem?_eq_none_iff.mp h1
      have hlb : 0 < ws.length := by
        by_contra hc
        have : ws = [] := List.eq_nil_of_length_eq_zero (by omega)
        rw [this] at h0
        cases h0
      omega
    obtain ⟨a, ha⟩ := List.length_eq_one.mp hlen1
    rw [ha] at h0
    have haeq : a = pyStrip p := by
      simpa using h0
    rw [ha, haeq] at hmk
    simpa using hmk
  refine ⟨main, ?_⟩
  intro c L O hO htext hstrip hlen hpage hsource
  have := main c.text L O hO (by rw [hstrip]; exact htext) (by rw [hstrip]; exact hlen)
  rw [hstrip] at this
  rw [this]
  cases c
  simp only at hpage hsource
  rw [hpage, hsource]

theorem c3_short_page_single_chunk_witness :
    make_chunks ["ab".toList] 5 3 = some [Chunk.mk "ab".toList 1 sourceLabel] ∧
    make_chunks [(Chunk.mk "ab".toList 1 sourceLabel).text] 5 3 =
      some [Chunk.mk "ab".toList 1 sourceLabel] :=
  ⟨by
    have h := c3_short_page_single_chunk.1 "ab".toList 5 3 (by decide) (by decide)
      (by decide)
    simpa using h,
   c3_short_page_single_chunk.2 (Chunk.mk "ab".toList 1 sourceLabel) 5 3 (by decide)
     (by decide) (by decide) (by decide) (by decide) (by decide)⟩


theorem dropWhile_head_false (p : Char → Bool) :
    ∀ (l : List Char) (x : Char) (xs : List Char),
      l.dropWhile p = x :: xs → p x = false := by
  intro l
  induction l with
  | nil => intro x xs h; cases h
  | cons a l ih =>
    intro x xs h
    by_cases ha : p a = true
    · rw [List.dropWhile_cons, if_pos ha] at h
      exact ih _ _ h
    · rw [List.dropWhile_cons, if_neg ha] at h
      cases h
      simpa using ha

theorem pyStrip_cons_append (a b : Char) (mid : List Char)
    (ha : pyWs a = false) (hb : pyWs b = false) :
    pyStrip (a :: (mid ++ [b])) = a :: (mid ++ [b]) := by
  have h1 : (a :: (mid ++ [b])).dropWhile pyWs = a :: (mid ++ [b]) := by
    rw [List.dropWhile_cons, if_neg (by simp [ha])]
  rw [pyStrip, h1]
  have h2 : (a :: (mid ++ [b])).reverse = b :: (mid.reverse ++ [a]) := by
    simp
  rw [h2]
  have h3 : (b :: (mid.reverse ++ [a])).dropWhile pyWs = b :: (mid.reverse ++ [a]) := by
    rw [List.dropWhile_cons, if_neg (by simp [hb])]
  rw [h3]
  simp

theorem splitFenceAux_step (a : Char) (l : List Char) (acc : List Char)
    (hlen : 2 ≤ l.length) (hno : ¬ fence.isPrefixOf (a :: l) = true) :
    splitFenceAux acc (a :: l) = splitFenceAux (a :: acc) l := by
  match l with
  | [] => simp at hlen
  | [b] => simp at hlen
  | b :: c :: r =>
    have hcond : ¬ (a = tickChar ∧ b = tickChar ∧ c = tickChar) := by
      intro ⟨h1, h2, h3⟩
      apply hno
      subst h1; subst h2; subst h3
      simp [fence, List.isPrefixOf]
    rw [splitFenceAux, if_neg hcond]

theorem splitFenceAux_no_fence :
    ∀ (mid : List Char) (acc : List Char),
      (∀ i < mid.length, ¬ fence.isPrefixOf ((mid ++ fence).drop i) = true) →
      splitFenceAux acc (mid ++ fence) = (acc.reverse ++ mid) :: [[]] := by
  intro mid
  induction mid with
  | nil =>
    intro acc _
    simp [splitFenceAux, fence]
  | cons x mid ih =>
    intro acc hno
    have hstep : splitFenceAux acc ((x :: mid) ++ fence)
        = splitFenceAux (x :: acc) (mid ++ fence) := by
      apply splitFenceAux_step
      · simp [fence]
      · have := hno 0 (by simp)
        simpa using this
    rw [hstep, ih (x :: acc) ?_]
    · simp
    · intro i hi
      have := hno (i + 1) (by simp; omega)
      simpa using this

theorem pySplitFence_fence_head (t : List Char) :
    pySplitFence (fence ++ t) = [] :: splitFenceAux [] t := by
  simp [pySplitFence, fence, splitFenceAux]

theorem cleanResponse_fenced (body : List Char)
    (hno : ∀ i < (jsonTag ++ body).length,
      ¬ fence.isPrefixOf (((jsonTag ++ body) ++ fence).drop i) = true) :
    cleanResponse (fence ++ ((jsonTag ++ body) ++ fence)) = body := by
  have hstrip : pyStrip (fence ++ ((jsonTag ++ body) ++ fence))
      = fence ++ ((jsonTag ++ body) ++ fence) := by
    have hshape : fence ++ ((jsonTag ++ body) ++ fence)
        = tickChar :: ((tickChar :: tickChar :: ((jsonTag ++ body) ++ [tickChar, tickChar])) ++ [tickChar]) := by
      simp [fence]
    rw [hshape]
    exact pyStrip_cons_append _ _ _ (by decide) (by decide)
  have hpre : fence.isPrefixOf (fence ++ ((jsonTag ++ body) ++ fence)) = true :=
    List.isPrefixOf_iff_prefix.mpr (List.prefix_append _ _)
  have hsplit : pySplitFence (fence ++ ((jsonTag ++ body) ++ fence))
      = [] :: ((jsonTag ++ body) :: [[]]) := by
    rw [pySplitFence_fence_head]
    have := splitFenceAux_no_fence (jsonTag ++ body) [] hno
    simpa using this
  have htag : jsonTag.isPrefixOf (jsonTag ++ body) = true :=
    List.isPrefixOf_iff_prefix.mpr (List.prefix_append _ _)
  rw [cleanResponse]
  simp only [hstrip, hpre, if_pos, hsplit]
  simp only [List.getD, List.get?_cons_succ, List.get?_cons_zero, Option.getD_some]
  rw [if_pos htag]
  have : (5 : Nat) = jsonTag.length := by decide
  rw [this, List.drop_left]

/-- Claim C8, amended: an LLM response consisting of a fenced JSON object
(three backticks, the tag `json` and a newline, the object text, three
backticks), where the enclosed text parses to an object `kvs` and contains
no premature triple-backtick occurrence (the amendment forced by
`c8_counterexample`), is cleaned and parsed to exactly that object by the
shared fence-stripping-and-parse step; accordingly `_evaluate_ats` returns
the object and `_extract_skills_from_resume` returns its `skills` entry. -/
theorem c8_fenced_json_parse (body : List Char) (kvs : List (List Char × Json))
    (hno : ∀ i < (jsonTag ++ body).length,
      ¬ fence.isPrefixOf (((jsonTag ++ body) ++ fence).drop i) = true)
    (hloads : loads body = some (Json.obj kvs)) :
    loads (cleanResponse (fence ++ ((jsonTag ++ body) ++ fence))) = some (Json.obj kvs) ∧
    evaluate_ats (fence ++ ((jsonTag ++ body) ++ fence)) = Json.obj kvs ∧
    extract_skills_from_resume (fence ++ ((jsonTag ++ body) ++ fence))
      = Except.ok (dictGet skillsKey kvs (Json.arr [])) := by
  have hclean := cleanResponse_fenced body hno
  refine ⟨?_, ?_, ?_⟩
  · rw [hclean, hloads]
  · rw [evaluate_ats]
    simp only [hclean, hloads]
  · rw [extract_skills_from_resume]
    simp only [hclean, hloads]

theorem c8_fenced_json_parse_witness :
    loads (cleanResponse
        (fence ++ ((jsonTag ++ "\x7b\"skills\":[\"Go\"]\x7d\n".toList) ++ fence)))
      = some (Json.obj [("skills".toList, Json.arr [Json.str "Go".toList])]) ∧
    evaluate_ats (fence ++ ((jsonTag ++ "\x7b\"skills\":[\"Go\"]\x7d\n".toList) ++ fence))
      = Json.obj [("skills".toList, Json.arr [Json.str "Go".toList])] ∧
    extract_skills_from_resume
        (fence ++ ((jsonTag ++ "\x7b\"skills\":[\"Go\"]\x7d\n".toList) ++ fence))
      = Except.ok (dictGet skillsKey
          [("skills".toList, Json.arr [Json.str "Go".toList])] (Json.arr [])) :=
  c8_fenced_json_parse "\x7b\"skills\":[\"Go\"]\x7d\n".toList
    [("skills".toList, Json.arr [Json.str "Go".toList])] (by decide) (by rfl)

/-- Claim C4 as stated is false: on the non-JSON response " not json " the
skill-extraction parse returns the empty list, not the
`\x7b error, raw_output \x7d` object; moreover the ATS parse stores the
fence-stripped text ("not json"), not the original response text. -/
theorem c4_counterexample :
    loads (cleanResponse (" not json ".toList)) = none ∧
    ¬ (extract_skills_from_resume (" not json ".toList)
          = Except.ok (invalidJsonObj (" not json ".toList)) ∧
        evaluate_ats (" not json ".toList) = invalidJsonObj (" not json ".toList)) ∧
    evaluate_ats (" not json ".toList) = invalidJsonObj ("not json".toList) ∧
    "not json".toList ≠ " not json ".toList := by
  refine ⟨rfl, ?_, rfl, by decide⟩
  rintro ⟨h1, h2⟩
  have h3 : extract_skills_from_resume (" not json ".toList)
      = Except.ok (Json.arr []) := rfl
  rw [h3] at h1
  have h4 : Json.arr [] = invalidJsonObj (" not json ".toList) := by
    injection h1
  rw [invalidJsonObj] at h4
  exact Json.noConfusion h4

/-- Claim C4, amended: for every LLM response whose fence-stripped text is
not valid JSON, the skill-extraction parse returns the empty skills list
and the ATS-scoring parse returns
`\x7b"error": "Invalid JSON response from LLM", "raw_output": r\x7d` where `r`
is the fence-stripped response text; neither raises. -/
theorem c4_amended_behavior (response : List Char)
    (h : loads (cleanResponse response) = none) :
    extract_skills_from_resume response = Except.ok (Json.arr []) ∧
    evaluate_ats response = invalidJsonObj (cleanResponse response) := by
  constructor
  · simp only [extract_skills_from_resume, h]
  · simp only [evaluate_ats, h]

theorem c4_amended_behavior_witness :
    extract_skills_from_resume ("I cannot answer that.".toList) = Except.ok (Json.arr []) ∧
    evaluate_ats ("I cannot answer that.".toList)
      = invalidJsonObj (cleanResponse ("I cannot answer that.".toList)) :=
  c4_amended_behavior ("I cannot answer that.".toList) (by rfl)

/-- Claim C7: whenever the resume text strips to empty, or the job
description strips to empty, or the GOOGLE_API_KEY credential is absent,
`analyze_resume` raises `ValueError` during input validation, before any
chunking, index construction or external call happens. -/
theorem c7_validation_before_work (r j : List Char) (k : Option String)
    (h : pyStrip r = [] ∨ pyStrip j = [] ∨ k = none) :
    ∃ m, analyze_resume r j k = AnalyzeOutcome.valueError m := by
  rw [analyze_resume]
  by_cases h1 : r = [] ∨ pyStrip r = []
  · rw [if_pos h1]; exact ⟨_, rfl⟩
  · rw [if_neg h1]
    by_cases h2 : j = [] ∨ pyStrip j = []
    · rw [if_pos h2]; exact ⟨_, rfl⟩
    · rw [if_neg h2]
      by_cases h3 : k = none ∨ k = some ""
      · rw [if_pos h3]; exact ⟨_, rfl⟩
      · exfalso
        rcases h with ha | hb | hc
        · exact h1 (Or.inr ha)
        · exact h2 (Or.inr hb)
        · exact h3 (Or.inl hc)

theorem c7_validation_before_work_witness :
    (∃ m, analyze_resume [] "desc".toList (some "key")
        = AnalyzeOutcome.valueError m) ∧
    (∃ m, analyze_resume "resume".toList " \t".toList (some "key")
        = AnalyzeOutcome.valueError m) ∧
    (∃ m, analyze_resume "resume".toList "desc".toList none
        = AnalyzeOutcome.valueError m) :=
  ⟨c7_validation_before_work [] "desc".toList (some "key") (Or.inl rfl),
   c7_validation_before_work "resume".toList " \t".toList (some "key")
     (Or.inr (Or.inl (by decide))),
   c7_validation_before_work "resume".toList "desc".toList none
     (Or.inr (Or.inr rfl))⟩

/-- Claim C1 concerns a code bug: `build_vector_store` never checks
`persist_directory` for `None`; it unconditionally calls
`os.makedirs(persist_directory, exist_ok=True)` and `save_local`.  With
`persist_directory=None` (the ephemeral mode used by `analyze_resume`) it
therefore raises `TypeError` instead of returning an in-memory index, and
with any directory it always writes to disk. -/
theorem c1_persist_none_raises :
    build_vector_store [Chunk.mk "Python".toList 1 sourceLabel] (some "key") none
      = Except.error (PyExn.typeError
          "expected str, bytes or os.PathLike object, not NoneType".toList) ∧
    build_vector_store [Chunk.mk "Python".toList 1 sourceLabel] (some "key")
        (some FAISS_DIR)
      = Except.ok
          (VectorStore.mk [Chunk.mk "Python".toList 1 sourceLabel]
            (EmbeddingModel.mk EMBEDDING_MODEL "key"),
           [FsEffect.makedirs FAISS_DIR, FsEffect.saveLocal FAISS_DIR]) := by
  constructor
  · rfl
  · rfl

/-- Claim C2 concerns a code bug: `src/api.py` line 26 imports
`extract_skills_only` and `evaluate_ats_only` from `.rag_chain`, but
`src/rag_chain.py` binds neither name, so the import (and with it both
endpoints) fails at module load. -/
theorem c2_import_missing_names :
    apiImportSucceeds = false ∧
    ragChainTopLevelNames.contains "extract_skills_only" = false ∧
    ragChainTopLevelNames.contains "evaluate_ats_only" = false := by
  refine ⟨?_, ?_, ?_⟩
  · rfl
  · rfl
  · rfl

theorem pyStrip_eq_nil_all_ws (l : List Char) (h : pyStrip l = []) :
    ∀ c ∈ l, pyWs c = true := by
  have h1 : (l.dropWhile pyWs).reverse.dropWhile pyWs = [] :=
    List.reverse_eq_nil_iff.mp h
  have h2 : ∀ a ∈ (l.dropWhile pyWs).reverse, pyWs a = true :=
    List.dropWhile_eq_nil_iff.mp h1
  intro c hc
  have hsplit : l.takeWhile pyWs ++ l.dropWhile pyWs = l :=
    List.takeWhile_append_dropWhile pyWs l
  rw [← hsplit] at hc
  rcases List.mem_append.mp hc with hm | hm
  · exact List.mem_takeWhile_imp hm
  · exact h2 c (List.mem_reverse.mpr hm)

theorem pyStrip_ne_nil_of_mem_nonws (l : List Char) (c : Char) (hc : c ∈ l)
    (hw : pyWs c = false) : pyStrip l ≠ [] := by
  intro h
  have := pyStrip_eq_nil_all_ws l h c hc
  simp [this] at hw

theorem nonws_mem_of_pyStrip_ne_nil (m : List Char) (h : pyStrip m ≠ []) :
    ∃ c ∈ pyStrip m, pyWs c = false := by
  rw [pyStrip] at h ⊢
  cases hv : (m.dropWhile pyWs).reverse.dropWhile pyWs with
  | nil => rw [hv] at h; simp at h
  | cons x xs =>
    refine ⟨x, ?_, dropWhile_head_false pyWs _ _ _ hv⟩
    simp

theorem intercalate_cons_head (sep x : List Char) (xs : List (List Char)) :
    ∃ z, List.intercalate sep (x :: xs) = x ++ z := by
  cases xs with
  | nil => exact ⟨[], by simp [List.intercalate]⟩
  | cons y ys =>
    refine ⟨sep ++ List.intercalate sep (y :: ys), ?_⟩
    simp [List.intercalate, List.intersperse]

theorem pdfTryBody_cases (pdfPages : Except PyExn (List (Option (List Char)))) :
    (∃ e, pdfTryBody pdfPages = Except.error e) ∨
    (∃ t, pdfTryBody pdfPages = Except.ok t ∧ pyStrip t ≠ []) := by
  cases pdfPages with
  | error e => exact Or.inl ⟨e, rfl⟩
  | ok pages =>
    rw [pdfTryBody]
    by_cases h0 : pages.length = 0
    · rw [if_pos h0]
      exact Or.inl ⟨_, rfl⟩
    · rw [if_neg h0]
      by_cases h1 : (pages.filterMap pageTextF).length = 0
      · rw [if_pos h1]
        exact Or.inl ⟨_, rfl⟩
      · rw [if_neg h1]
        cases hpt : pages.filterMap pageTextF with
        | nil => rw [hpt] at h1; simp at h1
        | cons t0 rest =>
          have ht0 : t0 ∈ pages.filterMap pageTextF := by
            rw [hpt]
            exact List.mem_cons_self _ _
          obtain ⟨pg, _, hfeq⟩ := List.mem_filterMap.mp ht0
          have ht0strip : pyStrip (pg.getD []) = t0 ∧ pyStrip (pg.getD []) ≠ [] := by
            rw [pageTextF] at hfeq
            by_cases hz : pyStrip (pg.getD []) = []
            · rw [if_pos hz] at hfeq; cases hfeq
            · rw [if_neg hz] at hfeq
              injection hfeq with he
              exact ⟨he, hz⟩
          obtain ⟨c, hcmem, hcws⟩ := nonws_mem_of_pyStrip_ne_nil _ ht0strip.2
          rw [ht0strip.1] at hcmem
          obtain ⟨z, hz⟩ := intercalate_cons_head pageSep t0 rest
          refine Or.inr ⟨_, rfl, ?_⟩
          rw [hz]
          exact pyStrip_ne_nil_of_mem_nonws _ c (List.mem_append_left _ hcmem) hcws

/-- Claim C10: `extract_text_from_pdf_bytes` either raises `ValueError` or
returns text that is neither empty nor whitespace-only; every internal
failure, including its own "PDF has no pages" and "No text could be
extracted" rejections and any exception from the pypdf reader, is
re-wrapped as `ValueError` by the surrounding `except Exception` clause, so
no other exception type escapes.  The external pypdf reader is quantified
over as an oracle covering every possible byte-string input. -/
theorem c10_pdf_extract_contract (pdfPages : Except PyExn (List (Option (List Char)))) :
    (∃ m, extract_text_from_pdf_bytes pdfPages = Except.error (PyExn.valueError m)) ∨
    (∃ t, extract_text_from_pdf_bytes pdfPages = Except.ok t ∧ pyStrip t ≠ []) := by
  rcases pdfTryBody_cases pdfPages with ⟨e, he⟩ | ⟨t, ht, hne⟩
  · left
    refine ⟨"Failed to extract text from PDF: ".toList ++ exnMessage e, ?_⟩
    rw [extract_text_from_pdf_bytes, he]
  · right
    refine ⟨t, ?_, hne⟩
    rw [extract_text_from_pdf_bytes, ht]

/-- Claim C8 as universally stated is false: a valid JSON object wrapped in
a `json`-tagged fence whose string content itself contains three backticks
is cut at the inner backticks by `split("\x60\x60\x60")`, so the parse step does
not yield the enclosed object (it fails, and the error fallback is used
instead). -/
theorem c8_counterexample :
    loads ("\x7b\"skills\":[\"\x60\x60\x60 hm\"]\x7d\n".toList)
      = some (Json.obj [("skills".toList, Json.arr [Json.str "\x60\x60\x60 hm".toList])]) ∧
    loads (cleanResponse
        (fence ++ ((jsonTag ++ "\x7b\"skills\":[\"\x60\x60\x60 hm\"]\x7d\n".toList) ++ fence)))
      = none :=
  ⟨rfl, rfl⟩

end RagBot
